import Mathlib

/-!
Verification of the BirchEngine ECS core (BirchEngine/Src/ECS/ECS.h).

The development shallowly embeds the four pieces of the core:

* the type-identity registry (the two getComponentTypeID functions and
  their static counter and per-kind memo),
* Component (observable here through its instance identity and kind),
* Entity (active flag, owned component list in insertion order, the
  fixed-size componentArray table and the componentBitSet),
* Manager (owned entity list, update/draw passes, refresh sweep).

Machine state that C++ keeps in function-local statics becomes an explicit
Registry value threaded through calls.  The virtual update/draw hooks are
observed as an event trace: Entity.update produces the list of component
update events in the order the source loop dispatches them, and likewise
for draw.  Raw pointers become instance identifiers (cid : Nat); the
fixed-size array of possibly unset Component pointers becomes a total
function into Option Nat, with none standing for an unset slot.
-/

/-- ComponentID from the source: using ComponentID = std::size_t. -/
abbrev ComponentID := Nat

/-- constexpr std::size_t maxComponents = 32. -/
def maxComponents : Nat := 32

/-- The process-wide registry state behind the two getComponentTypeID
functions: lastID is the function-local static counter of the
non-template overload, and table records, newest first, the memoized
static typeID of every component kind (keyed by an opaque encoding of
the C++ type) that has been requested so far. -/
structure Registry where
  lastID : Nat
  table : List (Nat × Nat)
deriving DecidableEq, Repr

/-- The process state before any component kind was requested:
the static counter starts at 0 and no per-kind static is initialized. -/
def Registry.init : Registry := ⟨0, []⟩

/-- The non-template getComponentTypeID(): return lastID++ on the
static counter. -/
def Registry.freshID (r : Registry) : Nat × Registry :=
  (r.lastID, ⟨r.lastID + 1, r.table⟩)

/-- Lookup of the memoized per-kind static: the first table entry whose
key is the requested kind, if any. -/
def lookupID (k : Nat) : List (Nat × Nat) → Option Nat
  | [] => none
  | (k0, id) :: t => if k = k0 then some id else lookupID k t

/-- template getComponentTypeID<T>(): the local static typeID is
initialized from the counter on the first call for this T and returned
unchanged on every later call.  k encodes the type argument T. -/
def getComponentTypeID (k : Nat) (r : Registry) : Nat × Registry :=
  match lookupID k r.table with
  | some id => (id, r)
  | none =>
    let p := r.freshID
    (p.1, ⟨p.2.lastID, (k, p.1) :: p.2.table⟩)

/-- Registry states reachable from process start by some sequence of
getComponentTypeID calls. -/
inductive Registry.Reachable : Registry → Prop where
  | init : Registry.Reachable Registry.init
  | step (k : Nat) {r : Registry} (h : Registry.Reachable r) :
      Registry.Reachable (getComponentTypeID k r).2

/-- Register the kinds 0, 1, ..., n-1 in order, starting from the fresh
process state. -/
def registerAll (n : Nat) : Registry :=
  (List.range n).foldl (fun r k => (getComponentTypeID k r).2) Registry.init

/-- A component instance, observed through its identity (cid, standing
for the address the source obtains from new T(...)) and the
ComponentID of its kind.  The init/update/draw hooks of the base class
are observed through the event traces below. -/
structure Component where
  cid : Nat
  tid : ComponentID
deriving DecidableEq, Repr

/-- One dispatch of a virtual hook on a component instance, as performed
by the entity loops: for (auto and c : components) c->update() and
c->draw(). -/
inductive Event where
  | update (cid : Nat)
  | draw (cid : Nat)
deriving DecidableEq, Repr

def Event.isUpdate : Event → Bool
  | .update _ => true
  | .draw _ => false

def Event.isDraw : Event → Bool
  | .update _ => false
  | .draw _ => true

/-- class Entity: the active flag, the owning vector of components in
insertion order, the fixed-size componentArray (unset slots are none)
and the componentBitSet. -/
structure Entity where
  active : Bool
  components : List Component
  componentArray : ComponentID → Option Nat
  componentBitSet : ComponentID → Bool

/-- A freshly constructed Entity (as made by Manager::addEntity):
active = true, no components, and no bit of the default-constructed
bitset set.  The source leaves componentArray uninitialized; the
embedding models every slot as unset. -/
def Entity.new : Entity where
  active := true
  components := []
  componentArray := fun _ => none
  componentBitSet := fun _ => false

def Entity.isActive (e : Entity) : Bool := e.active

/-- Entity::destroy(): active = false. -/
def Entity.destroy (e : Entity) : Entity :=
  { e with active := false }

/-- Entity::update(): for (auto and c : components) c->update(), observed
as the trace of update events the loop dispatches, left to right. -/
def Entity.update (e : Entity) : List Event :=
  e.components.foldl (fun t c => t ++ [Event.update c.cid]) []

/-- Entity::draw(): for (auto and c : components) c->draw(). -/
def Entity.draw (e : Entity) : List Event :=
  e.components.foldl (fun t c => t ++ [Event.draw c.cid]) []

/-- Entity::addComponent<T>(...): construct a fresh instance (its
identity cid plays the role of the pointer returned by new), append it
to the owned components, then set componentArray and componentBitSet at
index getComponentTypeID<T>() = tid.  The returned reference is the cid
recorded in the table. -/
def Entity.addComponent (e : Entity) (tid : ComponentID) (cid : Nat) : Entity :=
  { e with
    components := e.components ++ [⟨cid, tid⟩]
    componentArray := fun i => if i = tid then some cid else e.componentArray i
    componentBitSet := fun i => if i = tid then true else e.componentBitSet i }

/-- Entity::hasComponent<T>() exactly as the source writes it:
return ComponentBitSet(getComponentTypeID<T>); — note the missing call
parentheses.  The expression constructs a temporary std::bitset<32>
from getComponentTypeID<T>, the address of the ID function, which is a
non-null function pointer, and it never reads the componentBitSet
member of the entity.  As a bool return the statement is in fact
ill-formed C++ (std::bitset has no conversion to bool); it compiles in
the repository only because the template is never instantiated.  The
closest defined reading — the temporary bitset built from a non-null
pointer, i.e. from the value 1, read as a truth value — is a constant:
it depends neither on the entity nor on the component kind. -/
def Entity.hasComponent (_e : Entity) (_tid : ComponentID) : Bool :=
  decide ((1 : Nat) ≠ 0)

/-- Entity::getComponent<T>(): read componentArray at
getComponentTypeID<T>() and dereference.  The total embedding returns
the slot content; none is the unset-slot (in the source: undefined
dereference) branch. -/
def Entity.getComponent (e : Entity) (tid : ComponentID) : Option Nat :=
  e.componentArray tid

/-- Entity states reachable through the public interface, starting from
construction.  update, draw, isActive, hasComponent and getComponent do
not produce a new entity state. -/
inductive Entity.Reachable : Entity → Prop where
  | new : Entity.Reachable Entity.new
  | add {e : Entity} (tid : ComponentID) (cid : Nat) (h : Entity.Reachable e) :
      Entity.Reachable (e.addComponent tid cid)
  | destroy {e : Entity} (h : Entity.Reachable e) :
      Entity.Reachable e.destroy

/-- class Manager: the owning vector of entities in insertion order. -/
structure Manager where
  entities : List Entity

/-- Manager::addEntity(): append a freshly constructed entity. -/
def Manager.addEntity (m : Manager) : Manager :=
  ⟨m.entities ++ [Entity.new]⟩

/-- Manager::update(): for (auto and e : entities) e->update(), observed
as the concatenated trace, in storage order. -/
def Manager.update (m : Manager) : List Event :=
  m.entities.foldl (fun t e => t ++ e.update) []

/-- Manager::draw(): for (auto and e : entities) e->draw(). -/
def Manager.draw (m : Manager) : List Event :=
  m.entities.foldl (fun t e => t ++ e.draw) []

/-- One tick as driven by the frame loop in main.cpp / Game: a full
Manager::update() pass followed by a full Manager::draw() pass. -/
def Manager.tick (m : Manager) : List Event :=
  m.update ++ m.draw

/-- The erase(remove_if(...)) idiom of Manager::refresh, as a left-to-right
sweep keeping exactly the elements the predicate rejects. -/
def removeIf (p : α → Bool) : List α → List α
  | [] => []
  | x :: xs => if p x then removeIf p xs else x :: removeIf p xs

/-- Manager::refresh(): erase every entity for which !isActive(). -/
def Manager.refresh (m : Manager) : Manager :=
  ⟨removeIf (fun e => !e.isActive) m.entities⟩

/-! Concrete instances used to exercise the definitions. -/

/-- Entity A of the compaction scenario: active, one component of kind 0
with instance identity 1. -/
def eA : Entity := Entity.new.addComponent 0 1

/-- Entity B of the compaction scenario: destroyed, one component of
kind 0 with instance identity 2. -/
def eB : Entity := (Entity.new.addComponent 0 2).destroy

/-- Entity C of the compaction scenario: active, one component of kind 0
with instance identity 3. -/
def eC : Entity := Entity.new.addComponent 0 3

/-- The manager population [A(active), B(inactive), C(active)]. -/
def mABC : Manager := ⟨[eA, eB, eC]⟩

/-- The registry after requesting identities for two distinct kinds,
encoded 3 and then 7. -/
def r2ex : Registry :=
  (getComponentTypeID 7 (getComponentTypeID 3 Registry.init).2).2

/-! Helper lemmas about the list combinators used by the loops. -/

/-- The accumulating loop that appends one event per element is the map
of the element-wise event. -/
theorem foldl_snoc_eq_map (f : α → β) :
    ∀ (l : List α) (acc : List β),
      l.foldl (fun t c => t ++ [f c]) acc = acc ++ l.map f := by
  intro l
  induction l with
  | nil => intro acc; simp
  | cons x xs ih => intro acc; simp [ih, List.append_assoc]

/-- The accumulating loop that appends a whole trace per element is the
join of the map of the element-wise traces. -/
theorem foldl_flat_eq_join (f : α → List β) :
    ∀ (l : List α) (acc : List β),
      l.foldl (fun t x => t ++ f x) acc = acc ++ (l.map f).flatten := by
  intro l
  induction l with
  | nil => intro acc; simp
  | cons x xs ih => intro acc; simp [ih, List.append_assoc]

/-- The erase(remove_if) sweep keeps, in order, exactly the elements the
predicate rejects. -/
theorem removeIf_eq_filter (p : α → Bool) :
    ∀ l : List α, removeIf p l = l.filter (fun x => !(p x)) := by
  intro l
  induction l with
  | nil => rfl
  | cons x xs ih => cases h : p x <;> simp [removeIf, h, ih, List.filter_cons]

/-- Filtering twice with the same predicate filters once. -/
theorem filter_idem (q : α → Bool) :
    ∀ l : List α, (l.filter q).filter q = l.filter q := by
  intro l
  induction l with
  | nil => rfl
  | cons x xs ih =>
    cases h : q x <;> simp [List.filter_cons, h, ih]

/-- A key that lookupID does not find heads no table entry. -/
theorem lookupID_none_not_mem {k : Nat} :
    ∀ {l : List (Nat × Nat)}, lookupID k l = none → k ∉ l.map Prod.fst := by
  intro l
  induction l with
  | nil => intro _ h; simp at h
  | cons x xs ih =>
    intro hl hmem
    rcases x with ⟨k0, id0⟩
    by_cases hk : k = k0
    · simp [lookupID, hk] at hl
    · simp only [lookupID, if_neg hk] at hl
      simp only [List.map_cons] at hmem
      rcases List.mem_cons.mp hmem with h | h
      · exact hk h
      · exact ih hl h

/-- On a table with no repeated keys, lookupID finds every recorded
entry. -/
theorem lookupID_mem_nodup {k id : Nat} :
    ∀ {l : List (Nat × Nat)}, (l.map Prod.fst).Nodup → (k, id) ∈ l →
      lookupID k l = some id := by
  intro l
  induction l with
  | nil => intro _ h; simp at h
  | cons x xs ih =>
    intro hn hmem
    rcases x with ⟨k0, id0⟩
    simp only [List.map_cons, List.nodup_cons] at hn
    rcases List.mem_cons.mp hmem with h | h
    · cases h
      simp [lookupID]
    · have hk : k ≠ k0 := fun hkk =>
        hn.1 (hkk ▸ List.mem_map_of_mem Prod.fst h)
      simp only [lookupID, if_neg hk]
      exact ih hn.2 h

/-- If the recorded identities are pairwise distinct, an identity
determines its kind. -/
theorem snd_nodup_key_eq {k1 k2 id : Nat} :
    ∀ {l : List (Nat × Nat)}, (l.map Prod.snd).Nodup →
      (k1, id) ∈ l → (k2, id) ∈ l → k1 = k2 := by
  intro l
  induction l with
  | nil => intro _ h; simp at h
  | cons x xs ih =>
    intro hn h1 h2
    rcases x with ⟨k0, id0⟩
    simp only [List.map_cons, List.nodup_cons] at hn
    rcases List.mem_cons.mp h1 with ha | ha <;>
      rcases List.mem_cons.mp h2 with hb | hb
    · exact (show k1 = k0 from congrArg Prod.fst ha).trans
        (show k2 = k0 from congrArg Prod.fst hb).symm
    · have hid : id = id0 := congrArg Prod.snd ha
      exact absurd (hid ▸ List.mem_map_of_mem Prod.snd hb) hn.1
    · have hid : id = id0 := congrArg Prod.snd hb
      exact absurd (hid ▸ List.mem_map_of_mem Prod.snd ha) hn.1
    · exact ih hn.2 ha hb

/-! Registry invariant: the memo table holds pairwise-distinct kinds, and
the identities recorded for them are exactly lastID-1, ..., 1, 0 in
newest-first order (equivalently: 0, 1, 2, ... in first-use order). -/

def Registry.Inv (r : Registry) : Prop :=
  r.table.map Prod.snd = (List.range r.lastID).reverse ∧
    (r.table.map Prod.fst).Nodup

theorem Registry.inv_init : Registry.Inv Registry.init := by
  constructor <;> simp [Registry.init]

theorem Registry.inv_step (k : Nat) {r : Registry} (h : Registry.Inv r) :
    Registry.Inv (getComponentTypeID k r).2 := by
  cases hl : lookupID k r.table with
  | some id => simpa [getComponentTypeID, hl] using h
  | none =>
    refine ⟨?_, ?_⟩
    · simp [getComponentTypeID, hl, Registry.freshID, List.range_succ, h.1]
    · simp only [getComponentTypeID, hl, Registry.freshID, List.map_cons,
        List.nodup_cons]
      exact ⟨lookupID_none_not_mem hl, h.2⟩

theorem Registry.reach_inv {r : Registry} (h : Registry.Reachable r) :
    Registry.Inv r := by
  induction h with
  | init => exact Registry.inv_init
  | step k _ ih => exact Registry.inv_step k ih

/-! Entity invariant: whatever the bitset records as attached has a set
slot in the component table. -/

theorem Entity.reach_array_isSome {e : Entity} (h : Entity.Reachable e) :
    ∀ t : ComponentID, e.componentBitSet t = true →
      (e.componentArray t).isSome = true := by
  induction h with
  | new => intro t ht; simp [Entity.new] at ht
  | add tid cid _ ih =>
    intro t ht
    by_cases hc : t = tid
    · simp [Entity.addComponent, hc]
    · simp only [Entity.addComponent, if_neg hc] at ht ⊢
      exact ih t ht
  | destroy _ ih =>
    intro t ht
    exact ih t ht

/-! Trace shape helpers for the two-phase tick. -/

theorem update_trace_all_isUpdate (l : List Entity) :
    ((l.map Entity.update).flatten.all Event.isUpdate) = true := by
  rw [List.all_eq_true]
  intro ev hev
  rcases List.mem_flatten.mp hev with ⟨tr, htr, hmem⟩
  rcases List.mem_map.mp htr with ⟨e, _, rfl⟩
  rw [Entity.update, foldl_snoc_eq_map] at hmem
  simp only [List.nil_append] at hmem
  rcases List.mem_map.mp hmem with ⟨c, _, rfl⟩
  rfl

theorem draw_trace_all_isDraw (l : List Entity) :
    ((l.map Entity.draw).flatten.all Event.isDraw) = true := by
  rw [List.all_eq_true]
  intro ev hev
  rcases List.mem_flatten.mp hev with ⟨tr, htr, hmem⟩
  rcases List.mem_map.mp htr with ⟨e, _, rfl⟩
  rw [Entity.draw, foldl_snoc_eq_map] at hmem
  simp only [List.nil_append] at hmem
  rcases List.mem_map.mp hmem with ⟨c, _, rfl⟩
  rfl

/-! The claims. -/

/-- C1: immediately after E.addComponent<K>(...), E.hasComponent<K>()
returns true and E.getComponent<K>() returns a reference to the instance
the call just constructed.  The theorem records the hasComponent result
(which the degenerate source expression makes true here, see C2), the
componentBitSet entry the call sets (so the result is true under the
intended bitset reading as well), the getComponent result (the identity
cid of the fresh instance), and the appended ownership record. -/
theorem Entity.addComponent_attaches (e : Entity) (tid : ComponentID) (cid : Nat) :
    (e.addComponent tid cid).hasComponent tid = true ∧
    (e.addComponent tid cid).componentBitSet tid = true ∧
    (e.addComponent tid cid).getComponent tid = some cid ∧
    (e.addComponent tid cid).components = e.components ++ [⟨cid, tid⟩] := by
  refine ⟨rfl, ?_, ?_, rfl⟩
  · simp [Entity.addComponent]
  · simp [Entity.addComponent, Entity.getComponent]

/-- C2: the claim says hasComponent<K>() reports the bitset entry and is
false when no component of kind K was ever attached.  The source line
instead evaluates ComponentBitSet(getComponentTypeID<T>) — a temporary
bitset built from the address of the ID function — so its value ignores
the entity and the kind entirely and reads as true even on a freshly
constructed entity whose bitset has every bit clear. -/
theorem Entity.hasComponent_ignores_state :
    (∀ (e1 e2 : Entity) (t1 t2 : ComponentID),
        e1.hasComponent t1 = e2.hasComponent t2) ∧
    Entity.new.hasComponent 0 = true ∧
    Entity.new.componentBitSet 0 = false :=
  ⟨fun _ _ _ _ => rfl, rfl, rfl⟩

/-- C3: refresh() keeps, in stable relative order, exactly the entities
whose isActive() is true; on the population [A(active), B(inactive),
C(active)] it yields [A, C], and afterwards the only reachable
components are the ones owned by A and C (the component of B, instance
identity 2, is gone). -/
theorem Manager.refresh_removes_inactive :
    (∀ m : Manager,
        m.refresh.entities = m.entities.filter (fun e => e.isActive)) ∧
    mABC.refresh.entities = [eA, eC] ∧
    (mABC.refresh.entities.map Entity.components).flatten =
      [⟨1, 0⟩, ⟨3, 0⟩] := by
  refine ⟨?_, rfl, rfl⟩
  intro m
  show removeIf (fun e => !e.isActive) m.entities = _
  rw [removeIf_eq_filter]
  simp only [Bool.not_not]

/-- C4 counterexample: as stated, the precondition hasComponent<K>() is
the degenerate source expression, which is true on a freshly
constructed entity even though its table slot for kind 0 is unset, so
the unset-slot branch of the total getComponent embedding is reached
under the stated precondition. -/
theorem Entity.getComponent_unset_cex :
    Entity.new.hasComponent 0 = true ∧ Entity.new.getComponent 0 = none :=
  ⟨rfl, rfl⟩

/-- C4 amended: for every entity reachable through the interface, under
the precondition that the componentBitSet records kind K — the check
hasComponent is documented to perform — getComponent<K> never reaches
the unset-slot branch: the table lookup yields a set slot. -/
theorem Entity.getComponent_isSome_of_bitset (e : Entity) (tid : ComponentID)
    (hr : Entity.Reachable e) (hb : e.componentBitSet tid = true) :
    (e.getComponent tid).isSome = true :=
  Entity.reach_array_isSome hr tid hb

/-- C4 witness: a concrete reachable entity with the bit for kind 0 set,
on which the amended theorem applies. -/
theorem Entity.getComponent_isSome_witness :
    (Entity.new.addComponent 0 5).componentBitSet 0 = true ∧
    ((Entity.new.addComponent 0 5).getComponent 0).isSome = true :=
  ⟨rfl, Entity.getComponent_isSome_of_bitset (Entity.new.addComponent 0 5) 0
    (Entity.Reachable.add 0 5 Entity.Reachable.new) rfl⟩

/-- C5: the type-identity registry is stable (a second request for the
same kind returns the same identity, and any recorded kind keeps its
recorded identity), the identities recorded for distinct kinds never
collide, and the recorded identities are exactly lastID-1, ..., 1, 0 in
newest-first table order — that is, 0, 1, 2, ... in first-use order,
dense for indexing a fixed-size table. -/
theorem getComponentTypeID_correct :
    (∀ (k : Nat) (r : Registry),
        (getComponentTypeID k (getComponentTypeID k r).2).1 =
          (getComponentTypeID k r).1) ∧
    (∀ r : Registry, Registry.Reachable r → ∀ k id : Nat,
        (k, id) ∈ r.table → (getComponentTypeID k r).1 = id) ∧
    (∀ r : Registry, Registry.Reachable r →
        r.table.map Prod.snd = (List.range r.lastID).reverse) ∧
    (∀ r : Registry, Registry.Reachable r → ∀ k1 id1 k2 id2 : Nat,
        (k1, id1) ∈ r.table → (k2, id2) ∈ r.table → k1 ≠ k2 → id1 ≠ id2) := by
  refine ⟨?_, ?_, ?_, ?_⟩
  · intro k r
    cases hl : lookupID k r.table with
    | some id => simp [getComponentTypeID, hl]
    | none => simp [getComponentTypeID, hl, Registry.freshID, lookupID]
  · intro r hr k id hmem
    have hsome := lookupID_mem_nodup (Registry.reach_inv hr).2 hmem
    simp [getComponentTypeID, hsome]
  · intro r hr
    exact (Registry.reach_inv hr).1
  · intro r hr k1 id1 k2 id2 h1 h2 hk heq
    have hsnd : (r.table.map Prod.snd).Nodup := by
      rw [(Registry.reach_inv hr).1]
      exact List.nodup_reverse.mpr (List.nodup_range _)
    exact hk (snd_nodup_key_eq hsnd h1 (heq.symm ▸ h2))

/-- C5 witness: in the registry holding kinds 3 and 7, the recorded
entry for kind 3 is returned unchanged by a later request. -/
theorem getComponentTypeID_correct_witness :
    (3, 0) ∈ r2ex.table ∧ (getComponentTypeID 3 r2ex).1 = 0 :=
  ⟨by decide,
    getComponentTypeID_correct.2.1 r2ex
      (Registry.Reachable.step 7 (Registry.Reachable.step 3
        Registry.Reachable.init)) 3 0 (by decide)⟩

/-- C6: the active flag is true at construction; destroy() sets it to
false, is idempotent (a second destroy leaves the whole entity state
unchanged), and never set back to true by the one other state-changing
entity operation, addComponent; isActive() returns the flag as it is. -/
theorem Entity.active_lifecycle :
    Entity.new.isActive = true ∧
    (∀ e : Entity, e.destroy.isActive = false) ∧
    (∀ e : Entity, e.destroy.destroy = e.destroy) ∧
    (∀ e : Entity, e.isActive = e.active) ∧
    (∀ (e : Entity) (tid : ComponentID) (cid : Nat),
        (e.addComponent tid cid).isActive = e.isActive) :=
  ⟨rfl, fun _ => rfl, fun _ => rfl, fun _ => rfl, fun _ _ _ => rfl⟩

/-- C7: Entity::update() dispatches one update hook per owned component,
in insertion order, and Entity::draw() one draw hook per owned
component in the same order; both ignore the active flag, so a
destroyed entity produces exactly the same traces. -/
theorem Entity.update_draw_insertion_order (e : Entity) :
    e.update = e.components.map (fun c => Event.update c.cid) ∧
    e.draw = e.components.map (fun c => Event.draw c.cid) ∧
    e.destroy.update = e.update ∧
    e.destroy.draw = e.draw := by
  refine ⟨?_, ?_, rfl, rfl⟩
  · rw [Entity.update, foldl_snoc_eq_map, List.nil_append]
  · rw [Entity.draw, foldl_snoc_eq_map, List.nil_append]

/-- C8: Manager::update() is a full pass dispatching Entity::update on
every owned entity — inactive ones included — in storage order, and
Manager::draw() is a separate full pass in the same order; in the tick
trace driven by the frame loop every event of the update pass is an
update event and every event of the draw pass is a draw event, so all
updates of a tick precede all draws and the phases never interleave. -/
theorem Manager.two_phase_tick (m : Manager) :
    m.update = (m.entities.map Entity.update).flatten ∧
    m.draw = (m.entities.map Entity.draw).flatten ∧
    m.tick = (m.entities.map Entity.update).flatten ++
      (m.entities.map Entity.draw).flatten ∧
    ((m.entities.map Entity.update).flatten.all Event.isUpdate) = true ∧
    ((m.entities.map Entity.draw).flatten.all Event.isDraw) = true := by
  have hu : m.update = (m.entities.map Entity.update).flatten := by
    rw [Manager.update, foldl_flat_eq_join, List.nil_append]
  have hd : m.draw = (m.entities.map Entity.draw).flatten := by
    rw [Manager.draw, foldl_flat_eq_join, List.nil_append]
  refine ⟨hu, hd, ?_, update_trace_all_isUpdate _, draw_trace_all_isDraw _⟩
  rw [Manager.tick, hu, hd]

/-- C9: on any run that registers at most 32 distinct component kinds
(table length = lastID counts them), every identity recorded — and
hence every index addComponent and getComponent use into the per-entity
componentArray and componentBitSet — is below maxComponents = 32; after
32 distinct kinds the counter has reached the capacity, kind number 33
is not yet memoized, and registering it hands out index 32, which is
not a valid index into the fixed-size table. -/
theorem maxComponents_bound :
    (∀ r : Registry, Registry.Reachable r → r.table.length = r.lastID) ∧
    (∀ r : Registry, Registry.Reachable r → r.lastID ≤ maxComponents →
        ∀ p ∈ r.table, p.2 < maxComponents) ∧
    (registerAll 32).lastID = maxComponents ∧
    lookupID 32 (registerAll 32).table = none ∧
    (getComponentTypeID 32 (registerAll 32)).1 = maxComponents := by
  refine ⟨?_, ?_, by decide, by decide, by decide⟩
  · intro r hr
    have h1 := (Registry.reach_inv hr).1
    calc r.table.length = (r.table.map Prod.snd).length :=
          (List.length_map _ _).symm
      _ = (List.range r.lastID).reverse.length := by rw [h1]
      _ = r.lastID := by simp
  · intro r hr hle p hp
    have h1 := (Registry.reach_inv hr).1
    have hmem : p.2 ∈ (List.range r.lastID).reverse :=
      h1 ▸ List.mem_map_of_mem Prod.snd hp
    exact lt_of_lt_of_le (List.mem_range.mp (List.mem_reverse.mp hmem)) hle

/-- C9 witness: the registry holding two kinds is within capacity and
the entry recorded for the second kind is a valid table index. -/
theorem maxComponents_bound_witness :
    (registerAll 2).lastID ≤ maxComponents ∧
    ((1, 1) : Nat × Nat).2 < maxComponents :=
  ⟨by decide,
    maxComponents_bound.2.1 (registerAll 2)
      (Registry.Reachable.step 1 (Registry.Reachable.step 0
        Registry.Reachable.init))
      (by decide) (1, 1) (by decide)⟩

/-- C10: every entity surviving a refresh() is active, so a second
refresh() with no intervening destroy() removes nothing: refresh is
idempotent on the manager state. -/
theorem Manager.refresh_idempotent :
    (∀ m : Manager, ∀ e ∈ m.refresh.entities, e.isActive = true) ∧
    (∀ m : Manager, m.refresh.refresh = m.refresh) := by
  constructor
  · intro m e he
    rw [Manager.refresh, removeIf_eq_filter] at he
    have := List.of_mem_filter he
    simpa using this
  · intro m
    rw [Manager.refresh, Manager.refresh]
    simp only [removeIf_eq_filter, filter_idem]

/-- C10 witness: entity A survives the refresh of the concrete
population and is indeed active. -/
theorem Manager.refresh_idempotent_witness : eA.isActive = true :=
  Manager.refresh_idempotent.1 mABC eA
    (show eA ∈ [eA, eC] from List.mem_cons_self eA [eC])
